import Mathlib

/-!
Verification of the unlimitedai2api proxy (sources: src/index.ts and the
unnamed near-duplicate variant src/unnamed/part_000).

The development shallowly embeds the three cores of the program:

* the message converter (`extractText` / `convertMessages`), working over a
  JSON-like value type `JVal` that models the untyped (`any`) inputs; code
  points where JavaScript would throw a `TypeError` (property access on
  `null`) are modelled with the `Except String` monad;
* the auth-session manager (`getFreshSession` and the 401/403 invalidation
  in `handleChat`), modelled as a pure state transition parameterised by an
  oracle `FetchOutcome` describing what the network would answer, together
  with a count of the network fetches performed;
* the upstream stream parser (`parseUpstreamStream`) and its two consumers
  (SSE re-framing and non-streaming accumulation), working over `List Char`
  chunks.  `TextDecoder` with `stream: true` decodes byte chunks so that the
  concatenation of the decoded pieces equals the decode of the whole byte
  sequence; chunk granularity is therefore modelled at character level.

The two source variants agree on `extractText` and on the buffering loop of
`parseUpstreamStream`; where they differ (`convertMessages`, the `f` key of
the line protocol) both variants are embedded, in namespaces `Idx`
(src/index.ts) and `Alt` (src/unnamed/part_000).
-/

/-- JSON-like values, the model of the untyped (`any`) data the proxy
receives.  Objects are association lists; `JSON.parse` output has unique
keys, and lookups take the first match. -/
inductive JVal where
  | jnull
  | jbool (b : Bool)
  | jnum (n : Int)
  | jstr (s : String)
  | jarr (elems : List JVal)
  | jobj (fields : List (String × JVal))
deriving Repr

/-- JavaScript truthiness of a `JVal` (there is no NaN or undefined among
JSON-derived values; absent properties are handled via `Option`). -/
def jsTruthy : JVal → Bool
  | .jnull => false
  | .jbool b => b
  | .jnum n => !(n = 0)
  | .jstr s => !(s = "")
  | .jarr _ => true
  | .jobj _ => true

/-- First-match field lookup in an object. -/
def getField : List (String × JVal) → String → Option JVal
  | [], _ => none
  | (k, v) :: rest, key => if k = key then some v else getField rest key

/-- JavaScript property access `v[k]`: throws a `TypeError` on `null`,
yields `undefined` (here `none`) on primitives and arrays. -/
def getPropEx : JVal → String → Except String (Option JVal)
  | .jnull, _ => .error "TypeError: null has no properties"
  | .jobj fs, k => .ok (getField fs k)
  | _, _ => .ok none

/-- Whitespace for the model of `String.prototype.trim` (space, tab, CR,
LF; the further Unicode space characters JavaScript also trims play no
role in the proxy). -/
def isJsWs (c : Char) : Bool := c.isWhitespace

/-- Drop whitespace from both ends of a character list. -/
def trimChars (l : List Char) : List Char :=
  ((l.dropWhile isJsWs).reverse.dropWhile isJsWs).reverse

/-- Model of `s.trim()`. -/
def jsTrim (s : String) : String := (trimChars s.data).asString

/-- Model of `array.join(sep)`. -/
def jsJoin (sep : String) : List String → String
  | [] => ""
  | [s] => s
  | s :: rest => s ++ sep ++ jsJoin sep rest

mutual

/-- Model of `extractText` (src/index.ts lines 120-132, identical logic in
src/unnamed/part_000 lines 97-116).  The `Except` result records the
`TypeError` thrown by `item.text` when an array element is `null`. -/
def extractText (v : JVal) : Except String String :=
  if jsTruthy v = false then .ok ""
  else
    match v with
    | .jstr s => .ok s
    | .jarr items =>
      match extractItems items with
      | .error e => .error e
      | .ok parts => .ok (jsJoin "\n" parts)
    | .jobj fs => extractTextField fs
    | _ => .ok ""
termination_by sizeOf v

/-- The object branch `typeof content === "object" && content.text`: look up
the `text` field (first match, as JavaScript property lookup on the parsed
object), recurse when it is truthy, otherwise extract the empty string.  The
lookup is fused with the recursion so that the recursion is structural. -/
def extractTextField (fs : List (String × JVal)) : Except String String :=
  match fs with
  | [] => .ok ""
  | (k, v) :: rest =>
    if k = "text" then
      if jsTruthy v then extractText v else .ok ""
    else extractTextField rest
termination_by sizeOf fs

/-- The `content.map(...)` over array elements, `join`ed by the caller. -/
def extractItems (items : List JVal) : Except String (List String) :=
  match items with
  | [] => .ok []
  | item :: rest =>
    match extractItemText item with
    | .error e => .error e
    | .ok s =>
      match extractItems rest with
      | .error e => .error e
      | .ok ss => .ok (s :: ss)
termination_by sizeOf items

/-- Text of one array element: `typeof item === "string"` short-circuits,
then `item.text` is accessed (a `TypeError` on `null`) and a truthy `text`
field is extracted recursively; anything else contributes `""`. -/
def extractItemText (item : JVal) : Except String String :=
  match item with
  | .jstr s => .ok s
  | .jnull => .error "TypeError: null has no properties"
  | .jobj fs => extractTextField fs
  | _ => .ok ""
termination_by sizeOf item

end

/-- `extractText` applied to a possibly-undefined property value:
`undefined` is falsy, so `extractText(undefined)` returns `""`. -/
def extractTextOpt : Option JVal → Except String String
  | none => .ok ""
  | some v => extractText v

/-- Truthiness of a possibly-undefined value. -/
def jsTruthyOpt : Option JVal → Bool
  | none => false
  | some v => jsTruthy v

/-- The `rawContent.length === 0` test (evaluated only on truthy values in
the source, where the short-circuit protects the access): strings and
arrays have a `length` property, anything else compares `undefined === 0`,
which is false. -/
def jsLenZero : Option JVal → Bool
  | some (.jstr s) => s = ""
  | some (.jarr l) => l.isEmpty
  | _ => false

/-- The filter predicate `m.role === 'system'`: strict equality holds only
when the property is the string `"system"`. -/
def roleIsSystem (m : JVal) : Except String Bool :=
  match getPropEx m "role" with
  | .error e => .error e
  | .ok r =>
    .ok (match r with
      | some (.jstr s) => s = "system"
      | _ => false)

/-- `messages.filter(m => m.role === 'system')`, with the `TypeError` a
`null` list element would raise. -/
def filterSystem : List JVal → Except String (List JVal)
  | [] => .ok []
  | m :: rest =>
    match roleIsSystem m with
    | .error e => .error e
    | .ok b =>
      match filterSystem rest with
      | .error e => .error e
      | .ok r => .ok (if b then m :: r else r)

/-- `messages.filter(m => m.role !== 'system')`. -/
def filterNonSystem : List JVal → Except String (List JVal)
  | [] => .ok []
  | m :: rest =>
    match roleIsSystem m with
    | .error e => .error e
    | .ok b =>
      match filterNonSystem rest with
      | .error e => .error e
      | .ok r => .ok (if b then r else m :: r)

/-- `sysMsgs.map(m => extractText(m.content))`. -/
def mapExtract : List JVal → Except String (List String)
  | [] => .ok []
  | m :: rest =>
    match getPropEx m "content" with
    | .error e => .error e
    | .ok c =>
      match extractTextOpt c with
      | .error e => .error e
      | .ok t =>
        match mapExtract rest with
        | .error e => .error e
        | .ok ts => .ok (t :: ts)

/-- The content-or-parts fallback shared by both variants:
`if ((!rawContent || rawContent.length === 0) && m.parts) rawContent = m.parts`. -/
def rawContentOf (c p : Option JVal) : Option JVal :=
  if (!jsTruthyOpt c || jsLenZero c) && jsTruthyOpt p then p else c

namespace Idx

/-- Output message shape of src/index.ts `createMessageObject` (lines
134-147).  The `id` (`crypto.randomUUID()`) and `createdAt` (current time)
fields are fresh nondeterministic metadata and are not modelled; `partsText`
mirrors `parts[0].text`, which the source keeps equal to `content`. -/
structure MsgObj where
  role : Option JVal
  content : String
  partsText : String
deriving Repr

/-- `createMessageObject(role, content)`. -/
def mkMessage (role : Option JVal) (content : String) : MsgObj :=
  ⟨role, content, content⟩

/-- `sysMsgs.map(m => extractText(m.content)).join("\n\n").trim()`, guarded
by `sysMsgs.length > 0` (src/index.ts lines 155-158). -/
def systemInstructionOf (sys : List JVal) : Except String String :=
  if sys.isEmpty then .ok ""
  else
    match mapExtract sys with
    | .error e => .error e
    | .ok ts => .ok (jsTrim (jsJoin "\n\n" ts))

/-- The `chatMsgs.forEach` loop (src/index.ts lines 160-171): fall back to
`m.parts` when content is absent or empty, extract, trim, and keep only
messages with non-empty text. -/
def processChats : List JVal → Except String (List MsgObj)
  | [] => .ok []
  | m :: rest =>
    match getPropEx m "content" with
    | .error e => .error e
    | .ok c =>
      match getPropEx m "parts" with
      | .error e => .error e
      | .ok p =>
        match extractTextOpt (rawContentOf c p) with
        | .error e => .error e
        | .ok t =>
          let text := jsTrim t
          match getPropEx m "role" with
          | .error e => .error e
          | .ok role =>
            match processChats rest with
            | .error e => .error e
            | .ok r => .ok (if text.length > 0 then mkMessage role text :: r else r)

/-- `processedMessages[0].role === 'user'`. -/
def isUserRole : Option JVal → Bool
  | some (.jstr s) => s = "user"
  | _ => false

/-- The system-instruction merge (src/index.ts lines 173-181): when the
instruction block is non-empty, either prepend it to the first user message
(mutating `content` and `parts[0].text` together) or insert a synthetic
user message at the front. -/
def applySystem (instr : String) (processed : List MsgObj) : List MsgObj :=
  if instr.length > 0 then
    match processed with
    | first :: rest =>
      if isUserRole first.role then
        let combined := "[System Instruction]:\n" ++ instr ++ "\n\n" ++ first.content
        ⟨first.role, combined, combined⟩ :: rest
      else mkMessage (some (.jstr "user")) ("[System Instruction]:\n" ++ instr) :: first :: rest
    | [] => [mkMessage (some (.jstr "user")) ("[System Instruction]:\n" ++ instr)]
  else processed

/-- The final fallback (src/index.ts lines 183-185): an empty result list is
replaced by a single placeholder user message with text `"Hello"`. -/
def ensureNonEmpty (l : List MsgObj) : List MsgObj :=
  if l.isEmpty then [mkMessage (some (.jstr "user")) "Hello"] else l

/-- Model of `convertMessages` (src/index.ts lines 149-188). -/
def convertMessages (msgs : List JVal) : Except String (List MsgObj) :=
  match filterSystem msgs with
  | .error e => .error e
  | .ok sys =>
    match filterNonSystem msgs with
    | .error e => .error e
    | .ok chat =>
      match systemInstructionOf sys with
      | .error e => .error e
      | .ok instr =>
        match processChats chat with
        | .error e => .error e
        | .ok processed => .ok (ensureNonEmpty (applySystem instr processed))

end Idx

namespace Alt

/-- Output message shape of the src/unnamed/part_000 variant: plain
`role`/`content` records. -/
structure AltMsg where
  role : Option JVal
  content : String
deriving Repr

/-- The system-prompt block of src/unnamed/part_000 lines 124-136: when
there are system messages and the joined text is non-blank, a user message
with the instruction block and an assistant `"Understood."` turn are
emitted.  Note the joined text is not trimmed before being embedded. -/
def systemPairOf (sys : List JVal) : Except String (List AltMsg) :=
  if sys.isEmpty then .ok []
  else
    match mapExtract sys with
    | .error e => .error e
    | .ok ts =>
      let sysContent := jsJoin "\n\n" ts
      .ok (if jsTrim sysContent = "" then []
        else [⟨some (.jstr "user"), "[System Instructions]:\n" ++ sysContent⟩,
              ⟨some (.jstr "assistant"), "Understood."⟩])

/-- The `chatMsgs.forEach` loop of src/unnamed/part_000 lines 139-155. -/
def processChats : List JVal → Except String (List AltMsg)
  | [] => .ok []
  | m :: rest =>
    match getPropEx m "content" with
    | .error e => .error e
    | .ok c =>
      match getPropEx m "parts" with
      | .error e => .error e
      | .ok p =>
        match extractTextOpt (rawContentOf c p) with
        | .error e => .error e
        | .ok t =>
          let finalContent := jsTrim t
          match getPropEx m "role" with
          | .error e => .error e
          | .ok role =>
            match processChats rest with
            | .error e => .error e
            | .ok r =>
              .ok (if finalContent.length > 0 then
                AltMsg.mk role finalContent :: r else r)

/-- The dummy-message fallback of src/unnamed/part_000 lines 158-160. -/
def ensureNonEmpty (l : List AltMsg) : List AltMsg :=
  if l.isEmpty then [⟨some (.jstr "user"), "Hello"⟩] else l

/-- Model of `convertMessages` (src/unnamed/part_000 lines 118-163). -/
def convertMessages (msgs : List JVal) : Except String (List AltMsg) :=
  match filterSystem msgs with
  | .error e => .error e
  | .ok sys =>
    match filterNonSystem msgs with
    | .error e => .error e
    | .ok chat =>
      match systemPairOf sys with
      | .error e => .error e
      | .ok sysPart =>
        match processChats chat with
        | .error e => .error e
        | .ok chats => .ok (ensureNonEmpty (sysPart ++ chats))

end Alt

/-! ## Auth session manager (src/index.ts lines 22-116, 227-277)

The session cache and the rotation counter are process-wide state; the two
handshake fetches are modelled by an oracle `FetchOutcome` saying what the
network would answer during this acquisition.  `AuthResult.fetches` counts
the upstream HTTP requests the acquisition performs, so that "the fast path
performs no network I/O" is the statement `fetches = 0`. -/

/-- `SessionData` (src/index.ts lines 23-27); times are epoch milliseconds. -/
structure SessionData where
  cookie : String
  token : String
  expiresAt : Nat
deriving Repr, DecidableEq

/-- The module-level mutable state (`cachedSession`, `requestCount`). -/
structure AuthState where
  cachedSession : Option SessionData
  requestCount : Nat
deriving Repr, DecidableEq

/-- The rotation configuration (`ENABLE_TOKEN_ROTATION`,
`TOKEN_ROTATION_LIMIT`). -/
structure AuthConfig where
  enableRotation : Bool
  rotationLimit : Nat
deriving Repr

/-- What the network answers during one acquisition: the CSRF fetch fails
with a non-success status, or the token fetch fails, or both succeed and
yield the listed `Set-Cookie` name=value pairs and the token. -/
inductive FetchOutcome where
  | csrfFail (status : Nat)
  | tokenFail (status : Nat)
  | success (serverCookies : List String) (token : String)
deriving Repr

/-- Result of one `getFreshSession` call: the returned value or thrown
error, the state afterwards, and how many upstream fetches were made. -/
structure AuthResult where
  result : Except String SessionData
  state : AuthState
  fetches : Nat
deriving Repr

/-- `[`NEXT_LOCALE=vi`, ...serverCookies].join("; ")` (src/index.ts lines
83-84). -/
def cookieStringOf (serverCookies : List String) : String :=
  jsJoin "; " ("NEXT_LOCALE=vi" :: serverCookies)

/-- The slow path of `getFreshSession` (src/index.ts lines 75-115): CSRF
fetch, then token fetch, then store the new session with a 5-minute TTL and
reset the usage counter. -/
def freshHandshake (st : AuthState) (now : Nat) (net : FetchOutcome) : AuthResult :=
  match net with
  | .csrfFail code => ⟨.error ("CSRF Fetch Failed: " ++ toString code), st, 1⟩
  | .tokenFail code => ⟨.error ("Token Fetch Failed: " ++ toString code), st, 2⟩
  | .success cookies tok =>
    let s : SessionData := ⟨cookieStringOf cookies, tok, now + 5 * 60 * 1000⟩
    ⟨.ok s, ⟨some s, 0⟩, 2⟩

/-- Model of `getFreshSession` (src/index.ts lines 57-116).  The fast path
(lines 62-66) returns the cached session untouched when it exists, is
unexpired, and — with rotation enabled — the usage count is below the
limit. -/
def getFreshSession (cfg : AuthConfig) (st : AuthState) (now : Nat)
    (net : FetchOutcome) : AuthResult :=
  let isUnderLimit := !cfg.enableRotation || decide (st.requestCount < cfg.rotationLimit)
  match st.cachedSession with
  | some s =>
    if decide (now < s.expiresAt) && isUnderLimit then ⟨.ok s, st, 0⟩
    else freshHandshake st now net
  | none => freshHandshake st now net

/-- The client-facing JSON error response
`Response.json({ error, details }, { status: 500 })`. -/
structure ClientResponse where
  status : Nat
  error : String
  details : String
deriving Repr, DecidableEq

/-- The upstream-failure branch of `handleChat` (src/index.ts lines
270-277, src/unnamed/part_000 lines 241-250): on 401/403 the cached session
is cleared, and a 500 response echoing the upstream status and body is
returned. -/
def handleUpstreamFailure (upstreamStatus : Nat) (upstreamBody : String)
    (st : AuthState) : AuthState × ClientResponse :=
  let st1 := if upstreamStatus = 401 || upstreamStatus = 403 then
    ⟨none, st.requestCount⟩ else st
  (st1, ⟨500, "Upstream error: " ++ toString upstreamStatus, upstreamBody⟩)

/-! ## JSON.parse model

Needed for the `f` metadata lines of the src/unnamed/part_000 stream parser
(`JSON.parse(val)` at line 191).  Strings, arrays, objects and the three
literals are parsed as JavaScript does; numbers are modelled as integers
(the fractional and exponent forms never occur in the proxied metadata and
are rejected by this model), and lone surrogate escapes are rejected. -/

/-- JSON insignificant whitespace. -/
def skipJsonWs (l : List Char) : List Char :=
  l.dropWhile (fun c => c = ' ' || c = '\t' || c = '\n' || c = '\r')

/-- Value of one hexadecimal digit. -/
def hexVal (c : Char) : Option Nat :=
  if '0' ≤ c && c ≤ '9' then some (c.toNat - 48)
  else if 'a' ≤ c && c ≤ 'f' then some (c.toNat - 87)
  else if 'A' ≤ c && c ≤ 'F' then some (c.toNat - 55)
  else none

/-- Body of a JSON string after the opening quote, with escape handling. -/
def parseJsonStringBody (acc : List Char) : List Char → Option (String × List Char)
  | '"' :: rest => some (acc.reverse.asString, rest)
  | '\\' :: e :: rest =>
    match e with
    | '"' => parseJsonStringBody ('"' :: acc) rest
    | '\\' => parseJsonStringBody ('\\' :: acc) rest
    | '/' => parseJsonStringBody ('/' :: acc) rest
    | 'b' => parseJsonStringBody ('\x08' :: acc) rest
    | 'f' => parseJsonStringBody ('\x0c' :: acc) rest
    | 'n' => parseJsonStringBody ('\n' :: acc) rest
    | 'r' => parseJsonStringBody ('\r' :: acc) rest
    | 't' => parseJsonStringBody ('\t' :: acc) rest
    | 'u' =>
      match rest with
      | h1 :: h2 :: h3 :: h4 :: r2 =>
        match hexVal h1, hexVal h2, hexVal h3, hexVal h4 with
        | some a, some b, some c, some d =>
          let n := ((a * 16 + b) * 16 + c) * 16 + d
          if n < 0xd800 ∨ (0xdfff < n ∧ n < 0x110000) then
            parseJsonStringBody (Char.ofNat n :: acc) r2
          else none
        | _, _, _, _ => none
      | _ => none
    | _ => none
  | c :: rest => if c.toNat < 0x20 then none else parseJsonStringBody (c :: acc) rest
  | [] => none

/-- A run of decimal digits and its value. -/
def parseJsonDigits (l : List Char) : Option (Nat × List Char) :=
  let ds := l.takeWhile Char.isDigit
  if ds.isEmpty then none
  else some (ds.foldl (fun a c => a * 10 + (c.toNat - 48)) 0, l.dropWhile Char.isDigit)

/-- Finish a number: fractional and exponent forms are outside the model. -/
def jsonNumRest (v : Int) (rest : List Char) : Option (JVal × List Char) :=
  match rest with
  | '.' :: _ => none
  | 'e' :: _ => none
  | 'E' :: _ => none
  | _ => some (.jnum v, rest)

/-- A JSON number (integer part only, see `jsonNumRest`). -/
def parseJsonNumber (l : List Char) : Option (JVal × List Char) :=
  match l with
  | '-' :: r =>
    match parseJsonDigits r with
    | some (n, rest) => jsonNumRest (-(n : Int)) rest
    | none => none
  | _ =>
    match parseJsonDigits l with
    | some (n, rest) => jsonNumRest (n : Int) rest
    | none => none

mutual

/-- One JSON value, fuelled recursive descent. -/
def parseJsonValue : Nat → List Char → Option (JVal × List Char)
  | 0, _ => none
  | fuel + 1, l =>
    match skipJsonWs l with
    | 'n' :: 'u' :: 'l' :: 'l' :: rest => some (.jnull, rest)
    | 't' :: 'r' :: 'u' :: 'e' :: rest => some (.jbool true, rest)
    | 'f' :: 'a' :: 'l' :: 's' :: 'e' :: rest => some (.jbool false, rest)
    | '"' :: rest =>
      match parseJsonStringBody [] rest with
      | some (s, r2) => some (.jstr s, r2)
      | none => none
    | '[' :: rest =>
      match skipJsonWs rest with
      | ']' :: r2 => some (.jarr [], r2)
      | r2 =>
        match parseJsonElems fuel r2 with
        | some (es, r3) => some (.jarr es, r3)
        | none => none
    | '\x7b' :: rest =>
      match skipJsonWs rest with
      | '\x7d' :: r2 => some (.jobj [], r2)
      | r2 =>
        match parseJsonMembers fuel r2 with
        | some (fs, r3) => some (.jobj fs, r3)
        | none => none
    | l2 => parseJsonNumber l2

/-- Comma-separated array elements up to the closing bracket. -/
def parseJsonElems : Nat → List Char → Option (List JVal × List Char)
  | 0, _ => none
  | fuel + 1, l =>
    match parseJsonValue fuel l with
    | none => none
    | some (v, rest) =>
      match skipJsonWs rest with
      | ',' :: r2 =>
        match parseJsonElems fuel r2 with
        | some (vs, r3) => some (v :: vs, r3)
        | none => none
      | ']' :: r2 => some ([v], r2)
      | _ => none

/-- Comma-separated object members up to the closing brace. -/
def parseJsonMembers : Nat → List Char → Option (List (String × JVal) × List Char)
  | 0, _ => none
  | fuel + 1, l =>
    match skipJsonWs l with
    | '"' :: rest =>
      match parseJsonStringBody [] rest with
      | none => none
      | some (k, r2) =>
        match skipJsonWs r2 with
        | ':' :: r3 =>
          match parseJsonValue fuel r3 with
          | none => none
          | some (v, r4) =>
            match skipJsonWs r4 with
            | ',' :: r5 =>
              match parseJsonMembers fuel r5 with
              | some (fs, r6) => some ((k, v) :: fs, r6)
              | none => none
            | '\x7d' :: r5 => some ([(k, v)], r5)
            | _ => none
        | _ => none
    | _ => none

end

/-- `JSON.parse`: parse one value and require only whitespace after it.
The fuel `l.length + 1` dominates the recursion depth, which consumes at
least one character per nested level. -/
def jsonParse (l : List Char) : Option JVal :=
  match parseJsonValue (l.length + 1) l with
  | some (v, rest) => if (skipJsonWs rest).isEmpty then some v else none
  | none => none

/-- The `f` branch of src/unnamed/part_000 line 191:
`try { const meta = JSON.parse(val); if (meta.messageId) messageId = meta.messageId } catch {}`.
Returns the new identifier when the update fires; a parse failure or the
`TypeError` of `meta.messageId` on `null` is swallowed by the `catch`, and
a falsy or absent `messageId` leaves the identifier unchanged. -/
def parseMeta (val : List Char) : Option JVal :=
  match jsonParse val with
  | none => none
  | some .jnull => none
  | some (.jobj fs) =>
    match getField fs "messageId" with
    | some m => if jsTruthy m then some m else none
    | none => none
  | some _ => none

/-! ## Stream parser (src/index.ts lines 191-223, src/unnamed/part_000
lines 166-200) -/

/-- The normalized stream events the parser yields.  Identifiers are `JVal`
because the `f` metadata assigns `meta.messageId` unconverted. -/
inductive StreamEvent where
  | content (text : List Char) (id : JVal)
  | reasoning (text : List Char) (id : JVal)
  | done (id : JVal)
deriving Repr

/-- The `id` field every yielded event carries. -/
def eventId : StreamEvent → JVal
  | .content _ i => i
  | .reasoning _ i => i
  | .done i => i

/-- Recognizer for the terminal event. -/
def isDoneEvent : StreamEvent → Bool
  | .done _ => true
  | _ => false

/-- `[a-z0-9]`, the character class of the line-protocol key. -/
def isLineKeyChar (c : Char) : Bool :=
  ('a' ≤ c && c ≤ 'z') || ('0' ≤ c && c ≤ '9')

/-- What `.` matches in the line regex (no `s` flag): anything except the
four line terminators. -/
def isRegexDotChar (c : Char) : Bool :=
  !(c = '\n' || c = '\r' || c = Char.ofNat 0x2028 || c = Char.ofNat 0x2029)

/-- `line.match(/^([a-z0-9]+):(.+)$/)`: a non-empty key run followed by a
colon and a non-empty terminator-free value.  (Backtracking cannot help the
regex: the characters the key group could give back are never colons.) -/
def matchLine (l : List Char) : Option (List Char × List Char) :=
  let key := l.takeWhile isLineKeyChar
  match l.dropWhile isLineKeyChar with
  | ':' :: val =>
    if key.isEmpty then none
    else if val.isEmpty then none
    else if val.all isRegexDotChar then some (key, val) else none
  | _ => none

/-- `if (val.startsWith('"') && val.endsWith('"')) val = val.slice(1, -1)`. -/
def stripQuotes (l : List Char) : List Char :=
  if l.head? = some '"' && l.getLast? = some '"' then (l.drop 1).dropLast else l

/-- `val.replace(/\\n/g, "\n")`: left-to-right, non-overlapping. -/
def unescapeNl : List Char → List Char
  | [] => []
  | '\\' :: 'n' :: rest => '\n' :: unescapeNl rest
  | c :: rest => c :: unescapeNl rest

namespace Idx

/-- Processing of one complete line by src/index.ts lines 204-218: blank
lines and non-matching lines are skipped, `0`/`g` yield a content/reasoning
event (quotes stripped, `\n` unescaped), `e`/`d` yield the terminal event,
every other key is ignored.  This variant has no `f` branch. -/
def keyStep (mid : JVal) (key val : List Char) : JVal × List StreamEvent :=
  if key = ['0'] || key = ['g'] then
    let content := unescapeNl (stripQuotes val)
    (mid, [if key = ['g'] then .reasoning content mid else .content content mid])
  else if key = ['e'] || key = ['d'] then (mid, [.done mid])
  else (mid, [])

/-- Dispatch on the matched line: blank or non-matching lines are skipped,
otherwise `keyStep` is applied to the key and the trimmed value. -/
def lineStep (mid : JVal) (line : List Char) : JVal × List StreamEvent :=
  if trimChars line = [] then (mid, [])
  else
    match matchLine line with
    | none => (mid, [])
    | some (key, rawVal) => keyStep mid key (trimChars rawVal)

end Idx

namespace Alt

/-- Processing of one complete line by src/unnamed/part_000 lines 179-195:
as `Idx.lineStep`, plus the `f` branch updating the message identifier. -/
def keyStep (mid : JVal) (key val : List Char) : JVal × List StreamEvent :=
  if key = ['0'] || key = ['g'] then
    let content := unescapeNl (stripQuotes val)
    (mid, [if key = ['g'] then .reasoning content mid else .content content mid])
  else if key = ['f'] then
    match parseMeta val with
    | some m => (m, [])
    | none => (mid, [])
  else if key = ['e'] || key = ['d'] then (mid, [.done mid])
  else (mid, [])

/-- Dispatch on the matched line, as in the other variant. -/
def lineStep (mid : JVal) (line : List Char) : JVal × List StreamEvent :=
  if trimChars line = [] then (mid, [])
  else
    match matchLine line with
    | none => (mid, [])
    | some (key, rawVal) => keyStep mid key (trimChars rawVal)

end Alt

/-- `const lines = buffer.split("\n"); buffer = lines.pop() || ""`, fused:
the complete lines and the held-back (possibly empty) fragment after the
final newline.  (`split` never returns an empty array, and popping an empty
string leaves the buffer `""`, so the fusion is exact.) -/
def splitLines : List Char → List (List Char) × List Char
  | [] => ([], [])
  | c :: rest =>
    let r := splitLines rest
    if c = '\n' then ([] :: r.1, r.2)
    else
      match r.1 with
      | [] => ([], c :: r.2)
      | l :: ls => ((c :: l) :: ls, r.2)

/-- Parser state between reads: the held-back fragment and the current
message identifier. -/
structure PState where
  buffer : List Char
  mid : JVal
deriving Repr

/-- Process a batch of complete lines, threading the identifier and
concatenating the yielded events in order. -/
def processLines (step : JVal → List Char → JVal × List StreamEvent) :
    JVal → List (List Char) → JVal × List StreamEvent
  | mid, [] => (mid, [])
  | mid, l :: ls =>
    let r1 := step mid l
    let r2 := processLines step r1.1 ls
    (r2.1, r1.2 ++ r2.2)

/-- One iteration of the read loop (src/index.ts lines 198-218): append the
decoded chunk to the buffer, split on newline, hold back the last fragment
(`lines.pop() || ""`), process the complete lines. -/
def feed (step : JVal → List Char → JVal × List StreamEvent)
    (st : PState) (chunk : List Char) : PState × List StreamEvent :=
  let parts := splitLines (st.buffer ++ chunk)
  let r := processLines step st.mid parts.1
  (⟨parts.2, r.1⟩, r.2)

/-- The whole read loop over a list of decoded chunks; at end of stream the
held-back fragment is discarded (`if (done) break`). -/
def feedAll (step : JVal → List Char → JVal × List StreamEvent) :
    PState → List (List Char) → PState × List StreamEvent
  | st, [] => (st, [])
  | st, c :: cs =>
    let r1 := feed step st c
    let r2 := feedAll step r1.1 cs
    (r2.1, r1.2 ++ r2.2)

/-- The ordered sequence of events `parseUpstreamStream` yields when the
reader delivers `chunks` and then reports done; `id0` is the initially
generated `crypto.randomUUID()`. -/
def parseStream (step : JVal → List Char → JVal × List StreamEvent)
    (chunks : List (List Char)) (id0 : JVal) : List StreamEvent :=
  (feedAll step ⟨[], id0⟩ chunks).2

/-- `parseUpstreamStream` of src/index.ts lines 191-223. -/
def Idx.parseUpstreamStream (chunks : List (List Char)) (id0 : JVal) : List StreamEvent :=
  parseStream Idx.lineStep chunks id0

/-- `parseUpstreamStream` of src/unnamed/part_000 lines 166-200. -/
def Alt.parseUpstreamStream (chunks : List (List Char)) (id0 : JVal) : List StreamEvent :=
  parseStream Alt.lineStep chunks id0

/-! ## The two consumers of the event sequence (handleChat, src/index.ts
lines 285-327) -/

/-- What the streaming mode sends to the client, abstracted from the JSON
serialization: a `chat.completion.chunk` with a content or reasoning delta,
the `finish_reason: "stop"` chunk, and the literal sentinel
`data: [DONE]`.  The nondeterministic `created` timestamp is not
modelled. -/
inductive SSEItem where
  | chunkContent (id : JVal) (text : List Char)
  | chunkReasoning (id : JVal) (text : List Char)
  | chunkStop (id : JVal)
  | doneSentinel
deriving Repr

/-- The streaming loop (src/index.ts lines 288-307): each event is framed
and pushed; on the first `done` event the stop chunk and the sentinel are
sent and the loop breaks, which also terminates the generator so no further
input is consumed. -/
def sseStream : List StreamEvent → List SSEItem
  | [] => []
  | .done i :: _ => [.chunkStop i, .doneSentinel]
  | .content t i :: rest => .chunkContent i t :: sseStream rest
  | .reasoning t i :: rest => .chunkReasoning i t :: sseStream rest

/-- The non-streaming loop (src/index.ts lines 313-321): accumulate content
and reasoning, track the last truthy event id, stop at the first `done`. -/
def collectCompletion (finalId : JVal) (content reasoning : List Char) :
    List StreamEvent → JVal × List Char × List Char
  | [] => (finalId, content, reasoning)
  | ev :: rest =>
    let content1 := match ev with | .content t _ => content ++ t | _ => content
    let reasoning1 := match ev with | .reasoning t _ => reasoning ++ t | _ => reasoning
    let id1 := if jsTruthy (eventId ev) then eventId ev else finalId
    match ev with
    | .done _ => (id1, content1, reasoning1)
    | _ => collectCompletion id1 content1 reasoning1 rest

/-- The events either consumer actually pulls from the lazy generator:
everything up to and including the first `done`.  Both loops `break` there,
so the generator never resumes past it. -/
def consumeEvents : List StreamEvent → List StreamEvent
  | [] => []
  | ev :: rest => if isDoneEvent ev then [ev] else ev :: consumeEvents rest

/-- A complete line that the parser recognizes as the terminal marker:
non-blank, grammar-matching, with key `e` or `d`. -/
def isTerminalLine (l : List Char) : Bool :=
  !(trimChars l).isEmpty &&
    match matchLine l with
    | some (key, _) => key = ['e'] || key = ['d']
    | none => false

/-- A complete line whose processing by `Alt.lineStep` changes the message
identifier: a grammar-matching `f` line whose value `JSON.parse`s to an
object with a truthy `messageId`.  This is independent of the current
identifier. -/
def updatesId (l : List Char) : Bool :=
  if trimChars l = [] then false
  else
    match matchLine l with
    | none => false
    | some (key, rawVal) =>
      if key = ['0'] || key = ['g'] then false
      else if key = ['f'] then (parseMeta (trimChars rawVal)).isSome
      else false

/-- Newline-joined lines, the inverse image of the split. -/
def joinLines : List (List Char) → List Char
  | [] => []
  | [l] => l
  | l :: rest => l ++ '\n' :: joinLines rest

/-- `exIsOk`: the computation returned rather than throwing. -/
def exIsOk {α : Type} : Except String α → Bool
  | .ok _ => true
  | .error _ => false

mutual

/-- Null-freedom of array elements: extraction dereferences exactly the
direct elements of arrays (`item.text`), so a `null` element is the defect;
nested arrays and object field values are checked recursively. -/
def itemsNullFree : List JVal → Bool
  | [] => true
  | .jnull :: _ => false
  | .jarr xs :: rest => itemsNullFree xs && itemsNullFree rest
  | .jobj fs :: rest => fieldsNullFree fs && itemsNullFree rest
  | _ :: rest => itemsNullFree rest

/-- Null-freedom of the arrays nested in an object's field values (a `null`
field value itself is harmless: it is falsy and never dereferenced). -/
def fieldsNullFree : List (String × JVal) → Bool
  | [] => true
  | (_, .jarr xs) :: rest => itemsNullFree xs && fieldsNullFree rest
  | (_, .jobj fs) :: rest => fieldsNullFree fs && fieldsNullFree rest
  | _ :: rest => fieldsNullFree rest

end

/-- No `null` occurs as a direct array element anywhere inside the value. -/
def arrayNullFree : JVal → Bool
  | .jarr items => itemsNullFree items
  | .jobj fs => fieldsNullFree fs
  | _ => true

/-- A message that is itself non-`null` and whose contents are
`arrayNullFree`. -/
def msgNullFree : JVal → Bool
  | .jnull => false
  | m => arrayNullFree m

/-- All messages of a list are `msgNullFree`. -/
def msgsNullFree (msgs : List JVal) : Bool := msgs.all msgNullFree

/-! ## Buffering lemmas: the split-and-hold-back loop is chunk-invariant -/

theorem splitLines_append (u v : List Char) :
    splitLines (u ++ v) =
      match (splitLines v).1 with
      | [] => ((splitLines u).1, (splitLines u).2 ++ (splitLines v).2)
      | a :: as => ((splitLines u).1 ++ ((splitLines u).2 ++ a) :: as, (splitLines v).2) := by
  induction u with
  | nil =>
    cases h : (splitLines v).1 with
    | nil => simp [splitLines, Prod.ext_iff, h]
    | cons a as => simp [splitLines, Prod.ext_iff, h]
  | cons c rest ih =>
    by_cases hc : c = '\n'
    · subst hc
      cases h : (splitLines v).1 with
      | nil =>
        simp only [h] at ih
        simp [splitLines, List.cons_append, ih, h]
      | cons a as =>
        simp only [h] at ih
        simp [splitLines, List.cons_append, ih, h]
    · cases h : (splitLines v).1 with
      | nil =>
        simp only [h] at ih
        cases hr : (splitLines rest).1 with
        | nil =>
          simp only [hr] at ih
          simp [splitLines, List.cons_append, ih, h, hr, hc]
        | cons l ls =>
          simp only [hr] at ih
          simp [splitLines, List.cons_append, ih, h, hr, hc]
      | cons a as =>
        simp only [h] at ih
        cases hr : (splitLines rest).1 with
        | nil =>
          simp only [hr] at ih
          simp [splitLines, List.cons_append, ih, h, hr, hc]
        | cons l ls =>
          simp only [hr] at ih
          simp [splitLines, List.cons_append, ih, h, hr, hc]

theorem splitLines_no_nl (l : List Char) (h : '\n' ∉ l) : splitLines l = ([], l) := by
  induction l with
  | nil => rfl
  | cons c rest ih =>
    simp only [List.mem_cons, not_or] at h
    have hc : ¬c = '\n' := fun hcc => h.1 (Eq.symm hcc)
    simp [splitLines, ih h.2, hc]

theorem splitLines_frag_no_nl (l : List Char) : '\n' ∉ (splitLines l).2 := by
  induction l with
  | nil => simp [splitLines]
  | cons c rest ih =>
    by_cases hc : c = '\n'
    · simp [splitLines, hc, ih]
    · cases hr : (splitLines rest).1 with
      | nil =>
        simp [splitLines, hc, hr]
        refine ⟨fun hcn => hc (Eq.symm hcn), ?_⟩
        intro hmem
        exact ih hmem
      | cons l2 ls =>
        simp [splitLines, hc, hr]
        exact ih

theorem processLines_append (step : JVal → List Char → JVal × List StreamEvent)
    (mid : JVal) (a b : List (List Char)) :
    processLines step mid (a ++ b) =
      ((processLines step (processLines step mid a).1 b).1,
       (processLines step mid a).2 ++ (processLines step (processLines step mid a).1 b).2) := by
  induction a generalizing mid with
  | nil => simp [processLines]
  | cons l ls ih => simp [processLines, ih]

theorem feed_append (step : JVal → List Char → JVal × List StreamEvent)
    (st : PState) (c1 c2 : List Char) :
    feed step st (c1 ++ c2) =
      ((feed step (feed step st c1).1 c2).1,
       (feed step st c1).2 ++ (feed step (feed step st c1).1 c2).2) := by
  have hassoc : st.buffer ++ (c1 ++ c2) = (st.buffer ++ c1) ++ c2 := by
    simp
  have hfrag := splitLines_frag_no_nl (st.buffer ++ c1)
  simp only [feed, hassoc, splitLines_append (st.buffer ++ c1) c2,
    splitLines_append ((splitLines (st.buffer ++ c1)).2) c2,
    splitLines_no_nl _ hfrag]
  cases h2 : (splitLines c2).1 with
  | nil => simp [processLines]
  | cons a as => simp [processLines_append]

theorem feed_nil (step : JVal → List Char → JVal × List StreamEvent)
    (st : PState) (h : '\n' ∉ st.buffer) : feed step st [] = (st, []) := by
  simp [feed, splitLines_no_nl _ h, processLines]

theorem feedAll_eq_feed_join (step : JVal → List Char → JVal × List StreamEvent)
    (cs : List (List Char)) (st : PState) (h : '\n' ∉ st.buffer) :
    feedAll step st cs = feed step st cs.flatten := by
  induction cs generalizing st with
  | nil => simp [feedAll, feed_nil step st h]
  | cons c cs ih =>
    have hb : '\n' ∉ (feed step st c).1.buffer := by
      simp only [feed]
      exact splitLines_frag_no_nl (st.buffer ++ c)
    simp [feedAll, ih _ hb, List.flatten, feed_append]

/-- C3: the stream parser is chunk-boundary-invariant.  Feeding any list of
decoded chunks to `parseUpstreamStream` (either variant) yields exactly the
same ordered event sequence as feeding their concatenation as one single
chunk; in particular a one-character-per-read delivery is equivalent to a
single read.  (`TextDecoder` with `stream: true` makes the byte-level
chunking of the reads equivalent to this character-level chunking.) -/
theorem c3_chunk_invariance (chunks : List (List Char)) (id0 : JVal) :
    Idx.parseUpstreamStream chunks id0 = Idx.parseUpstreamStream [chunks.flatten] id0 ∧
    Alt.parseUpstreamStream chunks id0 = Alt.parseUpstreamStream [chunks.flatten] id0 := by
  have h0 : '\n' ∉ (PState.mk [] id0).buffer := by simp
  constructor
  · rw [Idx.parseUpstreamStream, Idx.parseUpstreamStream, parseStream, parseStream,
      feedAll_eq_feed_join _ _ _ h0, feedAll_eq_feed_join _ _ _ h0]
    simp
  · rw [Alt.parseUpstreamStream, Alt.parseUpstreamStream, parseStream, parseStream,
      feedAll_eq_feed_join _ _ _ h0, feedAll_eq_feed_join _ _ _ h0]
    simp

theorem parseStream_single (step : JVal → List Char → JVal × List StreamEvent)
    (u : List Char) (id0 : JVal) :
    parseStream step [u] id0 = (feed step ⟨[], id0⟩ u).2 := by
  simp [parseStream, feedAll]

theorem feed_events_no_nl_tail (step : JVal → List Char → JVal × List StreamEvent)
    (st : PState) (u t : List Char) (h : '\n' ∉ t) :
    (feed step st (u ++ t)).2 = (feed step st u).2 := by
  have hassoc : st.buffer ++ (u ++ t) = (st.buffer ++ u) ++ t := by
    simp
  simp only [feed, hassoc, splitLines_append (st.buffer ++ u) t, splitLines_no_nl t h]

/-- C10: a trailing line not terminated by a newline before end-of-stream is
discarded: the held-back buffer is dropped when the reader reports done, so
appending any newline-free tail `t` (for instance a well-formed `key:value`
line missing its final newline) to a stream changes no emitted event, in
either variant of `parseUpstreamStream`. -/
theorem c10_trailing_fragment_dropped (u t : List Char) (id0 : JVal)
    (h : '\n' ∉ t) :
    Idx.parseUpstreamStream [u ++ t] id0 = Idx.parseUpstreamStream [u] id0 ∧
    Alt.parseUpstreamStream [u ++ t] id0 = Alt.parseUpstreamStream [u] id0 := by
  constructor
  · rw [Idx.parseUpstreamStream, Idx.parseUpstreamStream, parseStream_single,
      parseStream_single, feed_events_no_nl_tail _ _ _ _ h]
  · rw [Alt.parseUpstreamStream, Alt.parseUpstreamStream, parseStream_single,
      parseStream_single, feed_events_no_nl_tail _ _ _ _ h]

/-- C10 witness: the complete-looking line `0:"Hello"` with no terminating
newline produces no event at all. -/
theorem c10_witness :
    ('\n' ∉ ("0:\"Hello\"").data) ∧
    Idx.parseUpstreamStream [[] ++ ("0:\"Hello\"").data] (.jstr "uuid-0") =
      Idx.parseUpstreamStream [[]] (.jstr "uuid-0") ∧
    Idx.parseUpstreamStream [("0:\"Hello\"").data] (.jstr "uuid-0") = [] := by
  refine ⟨by decide, ?_, by rfl⟩
  exact (c10_trailing_fragment_dropped [] ("0:\"Hello\"").data (.jstr "uuid-0")
    (by decide)).1

theorem isTerminalLine_step (mid : JVal) (l : List Char)
    (h : isTerminalLine l = true) :
    Idx.lineStep mid l = (mid, [.done mid]) := by
  unfold isTerminalLine at h
  rw [Bool.and_eq_true] at h
  obtain ⟨h1, h2⟩ := h
  have hne : ¬trimChars l = [] := by
    simpa using h1
  unfold Idx.lineStep
  rw [if_neg hne]
  cases hm : matchLine l with
  | none =>
    rw [hm] at h2
    simp at h2
  | some kv =>
    obtain ⟨key, rawVal⟩ := kv
    rw [hm] at h2
    simp only [Bool.or_eq_true, decide_eq_true_eq] at h2
    rcases h2 with h2 | h2 <;> subst h2 <;> rfl

theorem processLines_any_done (ls : List (List Char)) (mid : JVal)
    (h : ∃ l ∈ ls, isTerminalLine l = true) :
    ((processLines Idx.lineStep mid ls).2).any isDoneEvent = true := by
  induction ls generalizing mid with
  | nil => simp at h
  | cons l rest ih =>
    obtain ⟨l0, hmem, hterm⟩ := h
    rcases List.mem_cons.mp hmem with h1 | h1
    · subst h1
      simp [processLines, isTerminalLine_step _ _ hterm, isDoneEvent]
    · simp only [processLines, List.any_append, Bool.or_eq_true]
      exact Or.inr (ih _ ⟨l0, h1, hterm⟩)

theorem consumeEvents_append_of_done (a b : List StreamEvent)
    (h : a.any isDoneEvent = true) : consumeEvents (a ++ b) = consumeEvents a := by
  induction a with
  | nil => simp at h
  | cons e rest ih =>
    by_cases he : isDoneEvent e = true
    · simp [consumeEvents, he]
    · have hr : rest.any isDoneEvent = true := by
        simp only [List.any_cons, Bool.or_eq_true] at h
        rcases h with h | h
        · exact absurd h he
        · exact h
      simp [consumeEvents, he, ih hr]

theorem consumeEvents_decomp (a : List StreamEvent)
    (h : a.any isDoneEvent = true) :
    ∃ pre i, consumeEvents a = pre ++ [StreamEvent.done i] ∧
      ∀ e ∈ pre, isDoneEvent e = false := by
  induction a with
  | nil => simp at h
  | cons ev rest ih =>
    by_cases he : isDoneEvent ev = true
    · cases ev with
      | done i =>
        refine ⟨[], i, by simp [consumeEvents, isDoneEvent], by simp⟩
      | content t i => simp [isDoneEvent] at he
      | reasoning t i => simp [isDoneEvent] at he
    · have hr : rest.any isDoneEvent = true := by
        simp only [List.any_cons, Bool.or_eq_true] at h
        rcases h with h | h
        · exact absurd h he
        · exact h
      obtain ⟨pre, i, heq, hpre⟩ := ih hr
      refine ⟨ev :: pre, i, ?_, ?_⟩
      · simp [consumeEvents, he, heq]
      · intro e hm
        rcases List.mem_cons.mp hm with h1 | h1
        · subst h1
          exact Bool.not_eq_true _ ▸ Bool.of_not_eq_true he
        · exact hpre e h1

/-- C5: once a complete line with key `e` or `d` is processed a `done`
event is emitted, the consumers (which break on it, terminating the lazy
generator) see nothing after that event, and the consumed output is
unchanged by whatever further input — including well-formed content
lines — follows in the stream. -/
theorem c5_terminal_stops (u v : List Char) (id0 : JVal)
    (hterm : ∃ l ∈ (splitLines u).1, isTerminalLine l = true) :
    (Idx.parseUpstreamStream [u] id0).any isDoneEvent = true ∧
    consumeEvents (Idx.parseUpstreamStream [u ++ v] id0) =
      consumeEvents (Idx.parseUpstreamStream [u] id0) ∧
    ∃ pre i, consumeEvents (Idx.parseUpstreamStream [u ++ v] id0) =
      pre ++ [StreamEvent.done i] ∧ ∀ e ∈ pre, isDoneEvent e = false := by
  have hany : (Idx.parseUpstreamStream [u] id0).any isDoneEvent = true := by
    rw [Idx.parseUpstreamStream, parseStream_single]
    simp only [feed]
    refine processLines_any_done _ _ ?_
    simpa using hterm
  have happ : Idx.parseUpstreamStream [u ++ v] id0 =
      Idx.parseUpstreamStream [u] id0 ++
        (feed Idx.lineStep (feed Idx.lineStep ⟨[], id0⟩ u).1 v).2 := by
    rw [Idx.parseUpstreamStream, Idx.parseUpstreamStream, parseStream_single,
      parseStream_single, feed_append]
  refine ⟨hany, ?_, ?_⟩
  · rw [happ]
    exact consumeEvents_append_of_done _ _ hany
  · rw [happ, consumeEvents_append_of_done _ _ hany]
    exact consumeEvents_decomp _ hany

/-- C5 witness: after `e:1` the well-formed content line `0:"yo"` in the
rest of the input contributes nothing to the consumed output. -/
theorem c5_witness :
    consumeEvents (Idx.parseUpstreamStream [("e:1\n").data ++ ("0:\"yo\"\n").data]
        (.jstr "uuid-1")) =
      consumeEvents (Idx.parseUpstreamStream [("e:1\n").data] (.jstr "uuid-1")) :=
  (c5_terminal_stops ("e:1\n").data ("0:\"yo\"\n").data (.jstr "uuid-1")
    (by decide)).2.1

/-- C4: for the upstream byte stream `0:"Hello"\n0:" world"\ne:done\n` the
parser emits content events `"Hello"` and `" world"` and then the terminal
event; streaming mode therefore sends exactly two content chunks with those
deltas, then the `finish_reason: "stop"` chunk, then the `data: [DONE]`
sentinel; non-streaming mode accumulates the single completion content
`"Hello world"`.  (`id0` is the parser-generated identifier, `pid` the
request payload id used as the initial `finalId`.) -/
theorem c4_round_trip (id0 pid : JVal) :
    Idx.parseUpstreamStream [("0:\"Hello\"\n0:\" world\"\ne:done\n").data] id0 =
      [.content "Hello".data id0, .content " world".data id0, .done id0] ∧
    sseStream (Idx.parseUpstreamStream [("0:\"Hello\"\n0:\" world\"\ne:done\n").data] id0) =
      [.chunkContent id0 "Hello".data, .chunkContent id0 " world".data,
       .chunkStop id0, .doneSentinel] ∧
    (collectCompletion pid [] []
      (Idx.parseUpstreamStream [("0:\"Hello\"\n0:\" world\"\ne:done\n").data] id0)).2.1 =
      "Hello world".data :=
  ⟨rfl, rfl, rfl⟩

theorem altKeyStep_mid_of_none (mid : JVal) (key val : List Char)
    (h : (key = ['f'] → parseMeta val = none)) :
    (Alt.keyStep mid key val).1 = mid := by
  unfold Alt.keyStep
  by_cases h0 : (key = ['0'] || key = ['g']) = true
  · rw [if_pos h0]
  · rw [if_neg h0]
    by_cases hf : key = ['f']
    · rw [if_pos hf, h hf]
    · rw [if_neg hf]
      by_cases he : (key = ['e'] || key = ['d']) = true
      · rw [if_pos he]
      · rw [if_neg he]

theorem altStep_mid_of_not_updating (mid : JVal) (l : List Char)
    (h : updatesId l = false) : (Alt.lineStep mid l).1 = mid := by
  unfold updatesId at h
  unfold Alt.lineStep
  by_cases ht : trimChars l = []
  · rw [if_pos ht]
  · rw [if_neg ht] at h ⊢
    cases hm : matchLine l with
    | none => rfl
    | some kv =>
      obtain ⟨key, rawVal⟩ := kv
      rw [hm] at h
      have h2 : (if (key = ['0'] || key = ['g']) = true then false
          else if key = ['f'] then (parseMeta (trimChars rawVal)).isSome
          else false) = false := h
      show (Alt.keyStep mid key (trimChars rawVal)).1 = mid
      refine altKeyStep_mid_of_none mid key (trimChars rawVal) ?_
      intro hf
      rw [hf] at h2
      have h3 : (parseMeta (trimChars rawVal)).isSome = false := h2
      cases hpm : parseMeta (trimChars rawVal) with
      | none => rfl
      | some m =>
        rw [hpm] at h3
        simp at h3

theorem altKeyStep_events_id (mid : JVal) (key val : List Char) :
    ∀ e ∈ (Alt.keyStep mid key val).2, eventId e = mid := by
  intro e he
  unfold Alt.keyStep at he
  by_cases h0 : (key = ['0'] || key = ['g']) = true
  · rw [if_pos h0] at he
    simp only [List.mem_singleton] at he
    subst he
    by_cases hg : key = ['g']
    · simp [hg, eventId]
    · simp [hg, eventId]
  · rw [if_neg h0] at he
    by_cases hf : key = ['f']
    · rw [if_pos hf] at he
      cases hp : parseMeta val with
      | none =>
        rw [hp] at he
        simp at he
      | some m =>
        rw [hp] at he
        simp at he
    · rw [if_neg hf] at he
      by_cases hed : (key = ['e'] || key = ['d']) = true
      · rw [if_pos hed] at he
        simp only [List.mem_singleton] at he
        subst he
        rfl
      · rw [if_neg hed] at he
        simp at he

theorem altStep_events_id (mid : JVal) (l : List Char) :
    ∀ e ∈ (Alt.lineStep mid l).2, eventId e = mid := by
  intro e he
  unfold Alt.lineStep at he
  by_cases ht : trimChars l = []
  · rw [if_pos ht] at he
    simp at he
  · rw [if_neg ht] at he
    cases hm : matchLine l with
    | none =>
      rw [hm] at he
      simp at he
    | some kv =>
      obtain ⟨key, rawVal⟩ := kv
      rw [hm] at he
      exact altKeyStep_events_id mid key (trimChars rawVal) e he

theorem processLines_alt_not_updating (ls : List (List Char)) (mid : JVal)
    (h : ∀ l ∈ ls, updatesId l = false) :
    (processLines Alt.lineStep mid ls).1 = mid ∧
      ∀ e ∈ (processLines Alt.lineStep mid ls).2, eventId e = mid := by
  induction ls generalizing mid with
  | nil => simp [processLines]
  | cons l rest ih =>
    have h1 : updatesId l = false := h l (by simp)
    have h2 : ∀ x ∈ rest, updatesId x = false := fun x hx => h x (by simp [hx])
    have hmid := altStep_mid_of_not_updating mid l h1
    obtain ⟨ihm, ihe⟩ := ih ((Alt.lineStep mid l).1) h2
    constructor
    · simp only [processLines]
      rw [ihm, hmid]
    · intro e he
      simp only [processLines, List.mem_append] at he
      rcases he with he | he
      · exact altStep_events_id mid l e he
      · have h3 := ihe e he
        rw [hmid] at h3
        exact h3

theorem altStep_f (id0 mid : JVal) (l v : List Char)
    (hne : ¬trimChars l = []) (hm : matchLine l = some (['f'], v))
    (hp : parseMeta (trimChars v) = some mid) :
    Alt.lineStep id0 l = (mid, []) := by
  unfold Alt.lineStep
  rw [if_neg hne, hm]
  show Alt.keyStep id0 ['f'] (trimChars v) = (mid, [])
  unfold Alt.keyStep
  rw [hp]
  rfl

theorem splitLines_joinLines (x : List Char) (rest : List (List Char))
    (h : ∀ l ∈ x :: rest, '\n' ∉ l) :
    splitLines (joinLines (x :: rest) ++ ['\n']) = (x :: rest, []) := by
  induction rest generalizing x with
  | nil =>
    have hx : '\n' ∉ x := h x (by simp)
    rw [joinLines, splitLines_append x ['\n'], splitLines_no_nl x hx]
    simp [splitLines]
  | cons y rest2 ih =>
    have hx : '\n' ∉ x := h x (by simp)
    have hrest : ∀ l ∈ y :: rest2, '\n' ∉ l := fun l hl => h l (by simp [hl])
    have hstep : joinLines (x :: y :: rest2) ++ ['\n'] =
        x ++ ('\n' :: (joinLines (y :: rest2) ++ ['\n'])) := by
      simp [joinLines]
    rw [hstep, splitLines_append x ('\n' :: (joinLines (y :: rest2) ++ ['\n'])),
      splitLines_no_nl x hx]
    have hsub : splitLines ('\n' :: (joinLines (y :: rest2) ++ ['\n'])) =
        ([] :: (y :: rest2), []) := by
      show (let r := splitLines (joinLines (y :: rest2) ++ ['\n']);
        if ('\n' : Char) = '\n' then ([] :: r.1, r.2)
        else match r.1 with
          | [] => ([], '\n' :: r.2)
          | l :: ls => (('\n' :: l) :: ls, r.2)) = ([] :: (y :: rest2), [])
      rw [ih y hrest]
      rfl
    rw [hsub]
    simp

/-- C9: in the variant that handles the `f` key (src/unnamed/part_000), a
grammar-matching `f` line whose value parses to an object with a truthy
`messageId` emits no event itself, and — as long as no later line updates
the identifier again — every subsequently emitted event carries that
`messageId` as its `id`, replacing the initially generated identifier
`id0`. -/
theorem c9_f_metadata (id0 mid : JVal) (ls1 ls2 : List (List Char)) (l v : List Char)
    (hnl : ∀ x ∈ ls1 ++ l :: ls2, '\n' ∉ x)
    (hne : ¬trimChars l = [])
    (hm : matchLine l = some (['f'], v))
    (hp : parseMeta (trimChars v) = some mid)
    (hupd : ∀ x ∈ ls2, updatesId x = false) :
    Alt.parseUpstreamStream [joinLines (ls1 ++ l :: ls2) ++ ['\n']] id0 =
      (processLines Alt.lineStep id0 ls1).2 ++ (processLines Alt.lineStep mid ls2).2 ∧
    ∀ e ∈ (processLines Alt.lineStep mid ls2).2, eventId e = mid := by
  obtain ⟨a, as, hc⟩ : ∃ a as, ls1 ++ l :: ls2 = a :: as := by
    cases ls1 with
    | nil => exact ⟨l, ls2, rfl⟩
    | cons b bs => exact ⟨b, bs ++ l :: ls2, rfl⟩
  have hsplit : splitLines (joinLines (ls1 ++ l :: ls2) ++ ['\n']) = (ls1 ++ l :: ls2, []) := by
    rw [hc]
    refine splitLines_joinLines a as ?_
    rw [← hc]
    exact hnl
  have hev : Alt.parseUpstreamStream [joinLines (ls1 ++ l :: ls2) ++ ['\n']] id0 =
      (processLines Alt.lineStep id0 (ls1 ++ l :: ls2)).2 := by
    rw [Alt.parseUpstreamStream, parseStream_single]
    simp only [feed, List.nil_append, hsplit]
  obtain ⟨hmid2, hids⟩ := processLines_alt_not_updating ls2 mid hupd
  constructor
  · rw [hev, processLines_append Alt.lineStep id0 ls1 (l :: ls2)]
    simp only [processLines]
    rw [altStep_f ((processLines Alt.lineStep id0 ls1).1) mid l v hne hm hp]
    simp
  · exact hids

/-- C9 witness: on the concrete stream `0:"a"`, `f:{"messageId":"m1"}`,
`0:"b"`, `e:x` the `f` line emits nothing and the later events carry
`"m1"`. -/
theorem c9_witness :
    Alt.parseUpstreamStream
        [joinLines ([("0:\"a\"").data] ++
          ("f:\x7b\"messageId\":\"m1\"\x7d").data :: [("0:\"b\"").data, ("e:x").data]) ++
          ['\n']] (.jstr "uuid-2") =
      (processLines Alt.lineStep (.jstr "uuid-2") [("0:\"a\"").data]).2 ++
        (processLines Alt.lineStep (.jstr "m1") [("0:\"b\"").data, ("e:x").data]).2 ∧
    ∀ e ∈ (processLines Alt.lineStep (.jstr "m1") [("0:\"b\"").data, ("e:x").data]).2,
      eventId e = .jstr "m1" :=
  c9_f_metadata (.jstr "uuid-2") (.jstr "m1") [("0:\"a\"").data]
    [("0:\"b\"").data, ("e:x").data] (("f:\x7b\"messageId\":\"m1\"\x7d").data)
    (("\x7b\"messageId\":\"m1\"\x7d").data)
    (by decide) (by decide) (by decide) (by rfl) (by decide)

/-- C6: the fast path of session acquisition.  With a cached session, a
current time strictly before its `expiresAt`, and — if rotation is
enabled — a usage count strictly below the rotation limit, `getFreshSession`
returns the cached session value unchanged (same cookie and token strings),
performs zero network fetches whatever the network oracle would answer, and
leaves both the cached session and the usage counter untouched. -/
theorem c6_fast_path (cfg : AuthConfig) (st : AuthState) (now : Nat)
    (net : FetchOutcome) (s : SessionData)
    (hc : st.cachedSession = some s)
    (ht : now < s.expiresAt)
    (hr : cfg.enableRotation = true → st.requestCount < cfg.rotationLimit) :
    getFreshSession cfg st now net = ⟨.ok s, st, 0⟩ := by
  have hl : (!cfg.enableRotation || decide (st.requestCount < cfg.rotationLimit)) = true := by
    cases he : cfg.enableRotation with
    | false => rfl
    | true => simp [hr he]
  simp [getFreshSession, hc, ht, hl]

/-- C6 witness: with rotation on, a live TTL and remaining budget, the
cached credentials come back unchanged with zero fetches, even though the
network oracle would fail the handshake. -/
theorem c6_witness :
    getFreshSession ⟨true, 5⟩ ⟨some ⟨"cookie-a", "token-a", 1000⟩, 2⟩ 500 (.csrfFail 500) =
      ⟨.ok ⟨"cookie-a", "token-a", 1000⟩, ⟨some ⟨"cookie-a", "token-a", 1000⟩, 2⟩, 0⟩ :=
  c6_fast_path ⟨true, 5⟩ ⟨some ⟨"cookie-a", "token-a", 1000⟩, 2⟩ 500 (.csrfFail 500)
    ⟨"cookie-a", "token-a", 1000⟩ rfl (by decide) (fun _ => by decide)

/-- C7: a 401 or 403 from the upstream chat call clears the cached session
and returns a 500 JSON error embedding the upstream status and body; the
next acquisition then runs the full two-step handshake (two fetches,
minting a fresh session) for every clock value — in particular even before
the cleared session's TTL would have expired. -/
theorem c7_invalidation (status : Nat) (body : String) (st : AuthState)
    (h : status = 401 ∨ status = 403) :
    (handleUpstreamFailure status body st).1.cachedSession = none ∧
    (handleUpstreamFailure status body st).2.status = 500 ∧
    (handleUpstreamFailure status body st).2.error = "Upstream error: " ++ toString status ∧
    (handleUpstreamFailure status body st).2.details = body ∧
    ∀ cfg now cookies tok,
      getFreshSession cfg (handleUpstreamFailure status body st).1 now
          (.success cookies tok) =
        ⟨.ok ⟨cookieStringOf cookies, tok, now + 5 * 60 * 1000⟩,
         ⟨some ⟨cookieStringOf cookies, tok, now + 5 * 60 * 1000⟩, 0⟩, 2⟩ := by
  have h1 : (handleUpstreamFailure status body st).1 = ⟨none, st.requestCount⟩ := by
    rcases h with h | h <;> simp [handleUpstreamFailure, h]
  refine ⟨by rw [h1], rfl, rfl, rfl, ?_⟩
  intro cfg now cookies tok
  rw [h1]
  rfl

/-- C7 witness: after a 401 at time well inside the old session's TTL the
cache is cleared and the next acquisition runs both handshake steps. -/
theorem c7_witness :
    (handleUpstreamFailure 401 "denied" ⟨some ⟨"c", "t", 99999⟩, 3⟩).1.cachedSession = none ∧
    getFreshSession ⟨true, 5⟩ (handleUpstreamFailure 401 "denied"
        ⟨some ⟨"c", "t", 99999⟩, 3⟩).1 0 (.success ["sid=1"] "tok2") =
      ⟨.ok ⟨cookieStringOf ["sid=1"], "tok2", 0 + 5 * 60 * 1000⟩,
       ⟨some ⟨cookieStringOf ["sid=1"], "tok2", 0 + 5 * 60 * 1000⟩, 0⟩, 2⟩ :=
  ⟨(c7_invalidation 401 "denied" ⟨some ⟨"c", "t", 99999⟩, 3⟩ (Or.inl rfl)).1,
   (c7_invalidation 401 "denied" ⟨some ⟨"c", "t", 99999⟩, 3⟩ (Or.inl rfl)).2.2.2.2
     ⟨true, 5⟩ 0 ["sid=1"] "tok2"⟩

theorem idxEnsureNonEmpty_ne_nil (l : List Idx.MsgObj) : Idx.ensureNonEmpty l ≠ [] := by
  unfold Idx.ensureNonEmpty
  by_cases h : l.isEmpty
  · simp [h]
  · simp [h]
    exact fun hc => h (by simp [hc])

theorem altEnsureNonEmpty_ne_nil (l : List Alt.AltMsg) : Alt.ensureNonEmpty l ≠ [] := by
  unfold Alt.ensureNonEmpty
  by_cases h : l.isEmpty
  · simp [h]
  · simp [h]
    exact fun hc => h (by simp [hc])

/-- C8: whenever `convertMessages` returns (rather than throwing), the
returned message list is non-empty: the `"Hello"` placeholder replaces an
empty result.  Both variants. -/
theorem c8_never_empty (msgs : List JVal) (out1 : List Idx.MsgObj)
    (out2 : List Alt.AltMsg)
    (h1 : Idx.convertMessages msgs = .ok out1)
    (h2 : Alt.convertMessages msgs = .ok out2) :
    out1 ≠ [] ∧ out2 ≠ [] := by
  constructor
  · cases hs : filterSystem msgs with
    | error e => simp [Idx.convertMessages, hs] at h1
    | ok sys =>
      cases hns : filterNonSystem msgs with
      | error e => simp [Idx.convertMessages, hs, hns] at h1
      | ok chat =>
        cases hsi : Idx.systemInstructionOf sys with
        | error e => simp [Idx.convertMessages, hs, hns, hsi] at h1
        | ok instr =>
          cases hpc : Idx.processChats chat with
          | error e => simp [Idx.convertMessages, hs, hns, hsi, hpc] at h1
          | ok processed =>
            simp only [Idx.convertMessages, hs, hns, hsi, hpc, Except.ok.injEq] at h1
            rw [← h1]
            exact idxEnsureNonEmpty_ne_nil _
  · cases hs : filterSystem msgs with
    | error e => simp [Alt.convertMessages, hs] at h2
    | ok sys =>
      cases hns : filterNonSystem msgs with
      | error e => simp [Alt.convertMessages, hs, hns] at h2
      | ok chat =>
        cases hsp : Alt.systemPairOf sys with
        | error e => simp [Alt.convertMessages, hs, hns, hsp] at h2
        | ok sysPart =>
          cases hpc : Alt.processChats chat with
          | error e => simp [Alt.convertMessages, hs, hns, hsp, hpc] at h2
          | ok chats =>
            simp only [Alt.convertMessages, hs, hns, hsp, hpc, Except.ok.injEq] at h2
            rw [← h2]
            exact altEnsureNonEmpty_ne_nil _

/-- C8 witness: the empty input list converts, in both variants, to the
singleton `"Hello"` placeholder, which is non-empty. -/
theorem c8_witness :
    ([Idx.mkMessage (some (.jstr "user")) "Hello"] ≠ ([] : List Idx.MsgObj)) ∧
    ((⟨some (.jstr "user"), "Hello"⟩ :: []) ≠ ([] : List Alt.AltMsg)) :=
  c8_never_empty [] [Idx.mkMessage (some (.jstr "user")) "Hello"]
    (⟨some (.jstr "user"), "Hello"⟩ :: []) rfl rfl

theorem filterSystem_all (msgs : List JVal)
    (h : ∀ m ∈ msgs, roleIsSystem m = .ok true) :
    filterSystem msgs = .ok msgs ∧ filterNonSystem msgs = .ok [] := by
  induction msgs with
  | nil => exact ⟨rfl, rfl⟩
  | cons m rest ih =>
    have hm := h m (by simp)
    obtain ⟨ih1, ih2⟩ := ih (fun x hx => h x (by simp [hx]))
    constructor
    · simp [filterSystem, hm, ih1]
    · simp [filterNonSystem, hm, ih2]

/-- C2 counterexample: in the src/unnamed/part_000 variant an input with
only system-role messages converts to TWO messages, the second being an
injected assistant turn saying `"Understood."` — not to exactly one user
message, refuting the claim for that variant (note also the differing
label, `[System Instructions]` instead of `[System Instruction]`). -/
theorem c2_counterexample :
    Alt.convertMessages [.jobj [("role", .jstr "system"), ("content", .jstr "Be nice.")]] =
      .ok [⟨some (.jstr "user"), "[System Instructions]:\nBe nice."⟩,
           ⟨some (.jstr "assistant"), "Understood."⟩] := by
  simp [Alt.convertMessages, filterSystem, filterNonSystem, roleIsSystem, getPropEx, getField,
    Alt.systemPairOf, mapExtract, extractTextOpt, extractText, jsTruthy, Alt.processChats,
    Alt.ensureNonEmpty]
  rfl

/-- C2 (amended to the src/index.ts variant): when every input message has
role `"system"` and the joined, trimmed instruction block is non-blank,
`Idx.convertMessages` returns exactly one message — a synthetic user-role
message carrying the instruction block — and in particular no assistant
message.  (The src/unnamed/part_000 variant instead inserts a
user/assistant pair, see the counterexample.) -/
theorem c2_amended_idx (msgs : List JVal) (instr : String)
    (hall : ∀ m ∈ msgs, roleIsSystem m = .ok true)
    (hinstr : Idx.systemInstructionOf msgs = .ok instr)
    (hne : instr ≠ "") :
    Idx.convertMessages msgs =
      .ok [Idx.mkMessage (some (.jstr "user")) ("[System Instruction]:\n" ++ instr)] := by
  obtain ⟨h1, h2⟩ := filterSystem_all msgs hall
  have hlen : instr.length > 0 := by
    cases instr with
    | mk data =>
      cases data with
      | nil => exact absurd rfl hne
      | cons c cs => simp [String.length]
  simp [Idx.convertMessages, h1, h2, hinstr, Idx.processChats, Idx.applySystem, hlen,
    Idx.ensureNonEmpty]

/-- C2 witness: one system message with text `"Be nice."` converts, in the
src/index.ts variant, to exactly the one synthetic user message. -/
theorem c2_witness :
    Idx.convertMessages [.jobj [("role", .jstr "system"), ("content", .jstr "Be nice.")]] =
      .ok [Idx.mkMessage (some (.jstr "user")) ("[System Instruction]:\n" ++ "Be nice.")] :=
  c2_amended_idx [.jobj [("role", .jstr "system"), ("content", .jstr "Be nice.")]] "Be nice."
    (by
      intro m hm
      rw [List.mem_singleton] at hm
      subst hm
      rfl)
    (by
      simp [Idx.systemInstructionOf, mapExtract, getPropEx, getField, extractTextOpt,
        extractText, jsTruthy]
      rfl)
    (by decide)

theorem itemsNullFree_cons {item : JVal} {rest : List JVal}
    (h : itemsNullFree (item :: rest) = true) :
    item ≠ .jnull ∧ arrayNullFree item = true ∧ itemsNullFree rest = true := by
  cases item with
  | jnull => simp [itemsNullFree] at h
  | jarr xs =>
    rw [itemsNullFree, Bool.and_eq_true] at h
    exact ⟨by simp, by simpa [arrayNullFree] using h.1, h.2⟩
  | jobj fs =>
    rw [itemsNullFree, Bool.and_eq_true] at h
    exact ⟨by simp, by simpa [arrayNullFree] using h.1, h.2⟩
  | jbool b => exact ⟨by simp, rfl, by simpa [itemsNullFree] using h⟩
  | jnum n => exact ⟨by simp, rfl, by simpa [itemsNullFree] using h⟩
  | jstr s2 => exact ⟨by simp, rfl, by simpa [itemsNullFree] using h⟩

theorem fieldsNullFree_cons {k : String} {v : JVal} {rest : List (String × JVal)}
    (h : fieldsNullFree ((k, v) :: rest) = true) :
    arrayNullFree v = true ∧ fieldsNullFree rest = true := by
  cases v with
  | jarr xs =>
    rw [fieldsNullFree, Bool.and_eq_true] at h
    exact ⟨by simpa [arrayNullFree] using h.1, h.2⟩
  | jobj fs =>
    rw [fieldsNullFree, Bool.and_eq_true] at h
    exact ⟨by simpa [arrayNullFree] using h.1, h.2⟩
  | jnull => exact ⟨rfl, by simpa [fieldsNullFree] using h⟩
  | jbool b => exact ⟨rfl, by simpa [fieldsNullFree] using h⟩
  | jnum n => exact ⟨rfl, by simpa [fieldsNullFree] using h⟩
  | jstr s2 => exact ⟨rfl, by simpa [fieldsNullFree] using h⟩

theorem extract_ok_bound (n : Nat) :
    (∀ v : JVal, sizeOf v ≤ n → arrayNullFree v = true →
      exIsOk (extractText v) = true) ∧
    (∀ fs : List (String × JVal), sizeOf fs ≤ n → fieldsNullFree fs = true →
      exIsOk (extractTextField fs) = true) ∧
    (∀ items : List JVal, sizeOf items ≤ n → itemsNullFree items = true →
      exIsOk (extractItems items) = true) ∧
    (∀ item : JVal, sizeOf item ≤ n → item ≠ .jnull → arrayNullFree item = true →
      exIsOk (extractItemText item) = true) := by
  induction n using Nat.strong_induction_on with
  | _ n ih =>
    refine ⟨?_, ?_, ?_, ?_⟩
    · intro v hsv hnf
      cases v with
      | jnull => simp [extractText, jsTruthy, exIsOk]
      | jbool b => cases b <;> simp [extractText, jsTruthy, exIsOk]
      | jnum m => by_cases hn : m = 0 <;> simp [extractText, jsTruthy, hn, exIsOk]
      | jstr s2 => by_cases hs : s2 = "" <;> simp [extractText, jsTruthy, hs, exIsOk]
      | jarr items =>
        have hi : itemsNullFree items = true := by
          simpa [arrayNullFree] using hnf
        have hlt : sizeOf items < n := by
          simp at hsv
          omega
        have hrec := (ih (sizeOf items) hlt).2.2.1 items le_rfl hi
        cases hx : extractItems items with
        | error e =>
          rw [hx] at hrec
          simp [exIsOk] at hrec
        | ok parts => simp [extractText, jsTruthy, hx, exIsOk]
      | jobj fs =>
        have hf : fieldsNullFree fs = true := by
          simpa [arrayNullFree] using hnf
        have hlt : sizeOf fs < n := by
          simp at hsv
          omega
        have hrec := (ih (sizeOf fs) hlt).2.1 fs le_rfl hf
        simpa [extractText, jsTruthy] using hrec
    · intro fs hsf hnf
      rcases fs with _ | ⟨⟨k, v⟩, rest⟩
      · simp [extractTextField, exIsOk]
      · obtain ⟨hv, hrest⟩ := fieldsNullFree_cons hnf
        by_cases hk : k = "text"
        · by_cases ht : jsTruthy v = true
          · have hlt : sizeOf v < n := by
              simp at hsf
              omega
            have hrec := (ih (sizeOf v) hlt).1 v le_rfl hv
            simpa [extractTextField, hk, ht] using hrec
          · simp [extractTextField, hk, ht, exIsOk]
        · have hlt : sizeOf rest < n := by
            simp at hsf
            omega
          have hrec := (ih (sizeOf rest) hlt).2.1 rest le_rfl hrest
          simpa [extractTextField, hk] using hrec
    · intro items hsi hnf
      cases items with
      | nil => simp [extractItems, exIsOk]
      | cons item rest =>
        obtain ⟨hnn, hitem, hrest⟩ := itemsNullFree_cons hnf
        have hlt1 : sizeOf item < n := by
          simp at hsi
          omega
        have hlt2 : sizeOf rest < n := by
          simp at hsi
          omega
        have hone := (ih (sizeOf item) hlt1).2.2.2 item le_rfl hnn hitem
        cases hx : extractItemText item with
        | error e =>
          rw [hx] at hone
          simp [exIsOk] at hone
        | ok s2 =>
          have hmore := (ih (sizeOf rest) hlt2).2.2.1 rest le_rfl hrest
          cases hy : extractItems rest with
          | error e =>
            rw [hy] at hmore
            simp [exIsOk] at hmore
          | ok ss => simp [extractItems, hx, hy, exIsOk]
    · intro item hsi hnn ha
      cases item with
      | jnull => exact absurd rfl hnn
      | jstr s2 => simp [extractItemText, exIsOk]
      | jbool b => simp [extractItemText, exIsOk]
      | jnum m => simp [extractItemText, exIsOk]
      | jarr xs => simp [extractItemText, exIsOk]
      | jobj fs =>
        have hf : fieldsNullFree fs = true := by
          simpa [arrayNullFree] using ha
        have hlt : sizeOf fs < n := by
          simp at hsi
          omega
        have hrec := (ih (sizeOf fs) hlt).2.1 fs le_rfl hf
        simpa [extractItemText] using hrec

theorem extractText_ok (v : JVal) (h : arrayNullFree v = true) :
    exIsOk (extractText v) = true :=
  (extract_ok_bound (sizeOf v)).1 v le_rfl h

theorem extractTextField_ok (fs : List (String × JVal))
    (h : fieldsNullFree fs = true) : exIsOk (extractTextField fs) = true :=
  (extract_ok_bound (sizeOf fs)).2.1 fs le_rfl h

theorem fieldsNullFree_lookup {fs : List (String × JVal)} {k : String} {v : JVal}
    (hf : fieldsNullFree fs = true) (hg : getField fs k = some v) :
    arrayNullFree v = true := by
  induction fs with
  | nil => simp [getField] at hg
  | cons p rest ih =>
    obtain ⟨k1, v1⟩ := p
    obtain ⟨h1, h2⟩ := fieldsNullFree_cons hf
    unfold getField at hg
    by_cases hk : k1 = k
    · rw [if_pos hk] at hg
      cases hg
      exact h1
    · rw [if_neg hk] at hg
      exact ih h2 hg

theorem getPropEx_nullFree (m : JVal) (k : String) (hm : msgNullFree m = true) :
    ∃ r, getPropEx m k = .ok r ∧ ∀ v, r = some v → arrayNullFree v = true := by
  cases m with
  | jnull => simp [msgNullFree] at hm
  | jobj fs =>
    refine ⟨getField fs k, rfl, ?_⟩
    intro v hv
    have hf : fieldsNullFree fs = true := by
      simpa [msgNullFree, arrayNullFree] using hm
    exact fieldsNullFree_lookup hf hv
  | jbool b => exact ⟨none, rfl, by simp⟩
  | jnum n => exact ⟨none, rfl, by simp⟩
  | jstr s2 => exact ⟨none, rfl, by simp⟩
  | jarr items => exact ⟨none, rfl, by simp⟩

theorem extractTextOpt_ok (r : Option JVal)
    (h : ∀ v, r = some v → arrayNullFree v = true) :
    exIsOk (extractTextOpt r) = true := by
  cases r with
  | none => rfl
  | some v => exact extractText_ok v (h v rfl)

theorem rawContentOf_nullFree (c p : Option JVal)
    (hc : ∀ v, c = some v → arrayNullFree v = true)
    (hp : ∀ v, p = some v → arrayNullFree v = true) :
    ∀ v, rawContentOf c p = some v → arrayNullFree v = true := by
  intro v hv
  unfold rawContentOf at hv
  split at hv
  · exact hp v hv
  · exact hc v hv

theorem roleIsSystem_ok (m : JVal) (hm : msgNullFree m = true) :
    ∃ b, roleIsSystem m = .ok b := by
  cases m with
  | jnull => simp [msgNullFree] at hm
  | jobj fs => exact ⟨_, rfl⟩
  | jbool b => exact ⟨_, rfl⟩
  | jnum n => exact ⟨_, rfl⟩
  | jstr s2 => exact ⟨_, rfl⟩
  | jarr items => exact ⟨_, rfl⟩

theorem msgsNullFree_cons {m : JVal} {rest : List JVal}
    (h : msgsNullFree (m :: rest) = true) :
    msgNullFree m = true ∧ msgsNullFree rest = true := by
  simpa [msgsNullFree, Bool.and_eq_true] using h

theorem filterSystem_nullFree (msgs : List JVal) (h : msgsNullFree msgs = true) :
    ∃ l, filterSystem msgs = .ok l ∧ msgsNullFree l = true := by
  induction msgs with
  | nil => exact ⟨[], rfl, rfl⟩
  | cons m rest ih =>
    obtain ⟨hm, hrest⟩ := msgsNullFree_cons h
    obtain ⟨b, hb⟩ := roleIsSystem_ok m hm
    obtain ⟨l, hl, hlf⟩ := ih hrest
    refine ⟨if b then m :: l else l, by simp [filterSystem, hb, hl], ?_⟩
    cases b with
    | false => simpa using hlf
    | true =>
      show List.all (m :: l) msgNullFree = true
      rw [List.all_cons, Bool.and_eq_true]
      exact ⟨hm, hlf⟩

theorem filterNonSystem_nullFree (msgs : List JVal) (h : msgsNullFree msgs = true) :
    ∃ l, filterNonSystem msgs = .ok l ∧ msgsNullFree l = true := by
  induction msgs with
  | nil => exact ⟨[], rfl, rfl⟩
  | cons m rest ih =>
    obtain ⟨hm, hrest⟩ := msgsNullFree_cons h
    obtain ⟨b, hb⟩ := roleIsSystem_ok m hm
    obtain ⟨l, hl, hlf⟩ := ih hrest
    refine ⟨if b then l else m :: l, by simp [filterNonSystem, hb, hl], ?_⟩
    cases b with
    | true => simpa using hlf
    | false =>
      show List.all (m :: l) msgNullFree = true
      rw [List.all_cons, Bool.and_eq_true]
      exact ⟨hm, hlf⟩

theorem mapExtract_ok (msgs : List JVal) (h : msgsNullFree msgs = true) :
    ∃ ts, mapExtract msgs = .ok ts := by
  induction msgs with
  | nil => exact ⟨[], rfl⟩
  | cons m rest ih =>
    obtain ⟨hm, hrest⟩ := msgsNullFree_cons h
    obtain ⟨r, hr, hrf⟩ := getPropEx_nullFree m "content" hm
    have hext := extractTextOpt_ok r hrf
    cases hx : extractTextOpt r with
    | error e =>
      rw [hx] at hext
      simp [exIsOk] at hext
    | ok t =>
      obtain ⟨ts, hts⟩ := ih hrest
      exact ⟨t :: ts, by simp [mapExtract, hr, hx, hts]⟩

theorem idx_systemInstructionOf_ok (sys : List JVal) (h : msgsNullFree sys = true) :
    ∃ instr, Idx.systemInstructionOf sys = .ok instr := by
  by_cases he : sys.isEmpty
  · exact ⟨"", by simp [Idx.systemInstructionOf, he]⟩
  · obtain ⟨ts, hts⟩ := mapExtract_ok sys h
    exact ⟨jsTrim (jsJoin "\n\n" ts), by simp [Idx.systemInstructionOf, he, hts]⟩

theorem alt_systemPairOf_ok (sys : List JVal) (h : msgsNullFree sys = true) :
    ∃ l, Alt.systemPairOf sys = .ok l := by
  by_cases he : sys.isEmpty
  · exact ⟨[], by simp [Alt.systemPairOf, he]⟩
  · obtain ⟨ts, hts⟩ := mapExtract_ok sys h
    exact ⟨if jsTrim (jsJoin "\n\n" ts) = "" then [] else
        [⟨some (.jstr "user"), "[System Instructions]:\n" ++ jsJoin "\n\n" ts⟩,
         ⟨some (.jstr "assistant"), "Understood."⟩],
      by simp [Alt.systemPairOf, he, hts]⟩

theorem idx_processChats_ok (msgs : List JVal) (h : msgsNullFree msgs = true) :
    ∃ l, Idx.processChats msgs = .ok l := by
  induction msgs with
  | nil => exact ⟨[], rfl⟩
  | cons m rest ih =>
    obtain ⟨hm, hrest⟩ := msgsNullFree_cons h
    obtain ⟨c, hc0, hcf⟩ := getPropEx_nullFree m "content" hm
    obtain ⟨p, hp0, hpf⟩ := getPropEx_nullFree m "parts" hm
    have hext := extractTextOpt_ok (rawContentOf c p) (rawContentOf_nullFree c p hcf hpf)
    cases hx : extractTextOpt (rawContentOf c p) with
    | error e =>
      rw [hx] at hext
      simp [exIsOk] at hext
    | ok t =>
      obtain ⟨role, hrole, hrolef⟩ := getPropEx_nullFree m "role" hm
      obtain ⟨l, hl⟩ := ih hrest
      exact ⟨if (jsTrim t).length > 0 then Idx.mkMessage role (jsTrim t) :: l else l,
        by simp [Idx.processChats, hc0, hp0, hx, hrole, hl]⟩

theorem alt_processChats_ok (msgs : List JVal) (h : msgsNullFree msgs = true) :
    ∃ l, Alt.processChats msgs = .ok l := by
  induction msgs with
  | nil => exact ⟨[], rfl⟩
  | cons m rest ih =>
    obtain ⟨hm, hrest⟩ := msgsNullFree_cons h
    obtain ⟨c, hc0, hcf⟩ := getPropEx_nullFree m "content" hm
    obtain ⟨p, hp0, hpf⟩ := getPropEx_nullFree m "parts" hm
    have hext := extractTextOpt_ok (rawContentOf c p) (rawContentOf_nullFree c p hcf hpf)
    cases hx : extractTextOpt (rawContentOf c p) with
    | error e =>
      rw [hx] at hext
      simp [exIsOk] at hext
    | ok t =>
      obtain ⟨role, hrole, hrolef⟩ := getPropEx_nullFree m "role" hm
      obtain ⟨l, hl⟩ := ih hrest
      exact ⟨if (jsTrim t).length > 0 then Alt.AltMsg.mk role (jsTrim t) :: l else l,
        by simp [Alt.processChats, hc0, hp0, hx, hrole, hl]⟩

/-- C1 counterexample: a `null` element inside a content array makes
`extractText` — and hence `convertMessages` — throw a `TypeError` (the
`item.text` access on `null`), refuting "completes without raising an
exception ... including arrays containing null". -/
theorem c1_counterexample :
    extractText (.jarr [.jnull]) = .error "TypeError: null has no properties" ∧
    Idx.convertMessages [.jobj [("role", .jstr "user"), ("content", .jarr [.jnull])]] =
      .error "TypeError: null has no properties" := by
  constructor
  · simp [extractText, extractItems, extractItemText, jsTruthy]
  · simp [Idx.convertMessages, filterSystem, filterNonSystem, roleIsSystem, getPropEx,
      getField, Idx.systemInstructionOf, Idx.processChats, extractTextOpt, rawContentOf,
      jsTruthyOpt, jsTruthy, jsLenZero, extractText, extractItems, extractItemText]

/-- C1 (amended): `extractText` and both variants of `convertMessages`
complete without raising for every input in which `null` does not occur as
an array element (nor as a message itself); unrecognized non-string shapes
degrade to the empty string.  A `null` inside a content array, however,
raises a `TypeError` (see the counterexample). -/
theorem c1_amended_no_null (v : JVal) (msgs : List JVal)
    (hv : arrayNullFree v = true) (hm : msgsNullFree msgs = true) :
    exIsOk (extractText v) = true ∧
    exIsOk (Idx.convertMessages msgs) = true ∧
    exIsOk (Alt.convertMessages msgs) = true := by
  refine ⟨extractText_ok v hv, ?_, ?_⟩
  · obtain ⟨sys, h1, h1f⟩ := filterSystem_nullFree msgs hm
    obtain ⟨chat, h2, h2f⟩ := filterNonSystem_nullFree msgs hm
    obtain ⟨instr, h3⟩ := idx_systemInstructionOf_ok sys h1f
    obtain ⟨processed, h4⟩ := idx_processChats_ok chat h2f
    simp [Idx.convertMessages, h1, h2, h3, h4, exIsOk]
  · obtain ⟨sys, h1, h1f⟩ := filterSystem_nullFree msgs hm
    obtain ⟨chat, h2, h2f⟩ := filterNonSystem_nullFree msgs hm
    obtain ⟨sysPart, h3⟩ := alt_systemPairOf_ok sys h1f
    obtain ⟨chats, h4⟩ := alt_processChats_ok chat h2f
    simp [Alt.convertMessages, h1, h2, h3, h4, exIsOk]

/-- C1 witness: a nested array content without `null` and a normal user
message extract and convert without throwing. -/
theorem c1_witness :
    exIsOk (extractText (.jarr [.jstr "x", .jobj [("text", .jstr "y")]])) = true ∧
    exIsOk (Idx.convertMessages [.jobj [("role", .jstr "user"), ("content", .jstr "hi")]]) = true ∧
    exIsOk (Alt.convertMessages [.jobj [("role", .jstr "user"), ("content", .jstr "hi")]]) = true :=
  c1_amended_no_null (.jarr [.jstr "x", .jobj [("text", .jstr "y")]])
    [.jobj [("role", .jstr "user"), ("content", .jstr "hi")]]
    (by simp [arrayNullFree, itemsNullFree, fieldsNullFree])
    (by simp [msgsNullFree, msgNullFree, arrayNullFree, fieldsNullFree])
